import Mathlib

/-!
Verification of the go-database persistence abstraction.

This file gives a shallow embedding, in Lean 4, of the core components of
the repository: the pagination normalizer (`pkg/infrastructure/query`),
the filter-criteria data model and the `IdentifierBuilder`
(`pkg/domain/filter.go`, `pkg/domain/identifier.go`), the relational
(GORM) filter translator and the document-store (MongoDB) filter
translator (`FilterApplier`, `MongoFilterApplier`), the GORM-backed
unit-of-work soft-delete lifecycle (`PostgresUnitOfWork`), and the
transaction state machine.

Go `int` values are modelled as `Int` (no arithmetic in the verified
code can overflow 64 bits on the inputs considered, and Go division is
truncated division, which is `Int.tdiv`).  Go `interface{}` filter
values are modelled by the inductive type `Val`.  Go slices become
`List`, Go maps (`bson.M`) become association lists with Go's
overwrite-on-insert semantics, and external collaborators (the SQL
LIKE matcher, the MongoDB regular-expression engine, the JSON
containment operators) are parameters of the evaluation semantics.
-/

namespace GoDatabase

/-! ## Pagination normalizer (`pkg/infrastructure/query/params_test.go`) -/

/-- `NormalizePagination(offset, limit, page, pageSize)`: offset/limit wins
whenever `offset >= 0 && limit > 0`; otherwise fall back to page/pageSize
with defaulting `page < 1 -> 1`, `pageSize < 1 -> 50`.  Go `/` on ints is
truncated division (`Int.tdiv`). -/
def NormalizePagination (offset limit page pageSize : Int) : Int × Int :=
  if offset ≥ 0 ∧ limit > 0 then
    (Int.tdiv offset limit + 1, limit)
  else
    let page := if page < 1 then 1 else page
    let pageSize := if pageSize < 1 then 50 else pageSize
    (page, pageSize)

/-- `CalculateOffsetLimit(page, pageSize)`: re-applies the defaulting rules,
then `offset = (page-1)*pageSize`, `limit = pageSize`. -/
def CalculateOffsetLimit (page pageSize : Int) : Int × Int :=
  let page := if page < 1 then 1 else page
  let pageSize := if pageSize < 1 then 50 else pageSize
  ((page - 1) * pageSize, pageSize)

/-- `ValidatePaginationBounds(page, pageSize, maxPageSize)`: clamps
`maxPageSize <= 0 -> 200`, `page < 1 -> 1`, `pageSize < 1 -> 50`,
`pageSize > maxPageSize -> maxPageSize`. -/
def ValidatePaginationBounds (page pageSize maxPageSize : Int) : Int × Int :=
  let maxPageSize := if maxPageSize ≤ 0 then 200 else maxPageSize
  let page := if page < 1 then 1 else page
  let pageSize := if pageSize < 1 then 50 else pageSize
  let pageSize := if pageSize > maxPageSize then maxPageSize else pageSize
  (page, pageSize)

/-- The fixed pipeline used by `QueryParams.PrepareDefaults`
(`pkg/infrastructure/query/builder.go`): normalize, validate with
`maxPageSize = 200`, then compute the final offset/limit.  Returns the
validated `(page, pageSize)` and the computed `(offset, limit)`. -/
def paginationPipeline (offset limit page pageSize : Int) :
    (Int × Int) × (Int × Int) :=
  let n := NormalizePagination offset limit page pageSize
  let v := ValidatePaginationBounds n.1 n.2 200
  (v, CalculateOffsetLimit v.1 v.2)

end GoDatabase

namespace GoDatabase

/-- C1: for every `page ∈ [1, 1000]` and `pageSize ∈ [1, 200]`, running the
pipeline (NormalizePagination → ValidatePaginationBounds with
maxPageSize 200 → CalculateOffsetLimit) on the derived pair
`offset = (page-1)*pageSize`, `limit = pageSize` (with arbitrary
page/pageSize inputs alongside) reproduces the same validated
`(page, pageSize)` and the same final `(offset, limit)` as running the
pipeline directly on `(page, pageSize)` with no valid offset/limit
present (`offset < 0` or `limit <= 0`). -/
theorem pagination_equivalence (page pageSize : Int)
    (h1 : 1 ≤ page) (h2 : page ≤ 1000) (h3 : 1 ≤ pageSize) (h4 : pageSize ≤ 200)
    (offset limit p0 q0 : Int) (hnov : offset < 0 ∨ limit ≤ 0) :
    paginationPipeline ((page - 1) * pageSize) pageSize p0 q0
      = paginationPipeline offset limit page pageSize
    ∧ paginationPipeline offset limit page pageSize
      = ((page, pageSize), ((page - 1) * pageSize, pageSize)) := by
  have hb : ¬ ((offset : Int) ≥ 0 ∧ limit > 0) := by omega
  have hd : ((page - 1) * pageSize ≥ 0 ∧ pageSize > 0) :=
    ⟨mul_nonneg (by omega) (by omega), by omega⟩
  have hdiv : Int.tdiv ((page - 1) * pageSize) pageSize = page - 1 :=
    Int.mul_tdiv_cancel _ (by omega)
  have hn1 : NormalizePagination ((page - 1) * pageSize) pageSize p0 q0
      = (page, pageSize) := by
    unfold NormalizePagination
    rw [if_pos hd]
    simp only [Prod.mk.injEq, hdiv, and_true]
    omega
  have hn2 : NormalizePagination offset limit page pageSize = (page, pageSize) := by
    unfold NormalizePagination
    rw [if_neg hb]
    simp only [Prod.mk.injEq]
    refine ⟨by split_ifs <;> omega, by split_ifs <;> omega⟩
  have hv : ValidatePaginationBounds page pageSize 200 = (page, pageSize) := by
    unfold ValidatePaginationBounds
    simp only [Prod.mk.injEq]
    refine ⟨by split_ifs <;> omega, by split_ifs <;> omega⟩
  have hc : CalculateOffsetLimit page pageSize
      = ((page - 1) * pageSize, pageSize) := by
    unfold CalculateOffsetLimit
    simp only [Prod.mk.injEq]
    refine ⟨?_, by split_ifs <;> omega⟩
    rw [if_neg (by omega : ¬ page < 1), if_neg (by omega : ¬ pageSize < 1)]
  have hpipe : ∀ o l p q, NormalizePagination o l p q = (page, pageSize) →
      paginationPipeline o l p q
        = ((page, pageSize), ((page - 1) * pageSize, pageSize)) := by
    intro o l p q h
    unfold paginationPipeline
    rw [h]
    simp only
    rw [hv]
    simp only
    rw [hc]
  exact ⟨(hpipe _ _ _ _ hn1).trans (hpipe _ _ _ _ hn2).symm, hpipe _ _ _ _ hn2⟩

/-- Concrete instance of the C1 equivalence at `page = 3`, `pageSize = 7`,
invalid direct inputs `offset = -1`, `limit = 0`. -/
theorem pagination_equivalence_witness :
    paginationPipeline ((3 - 1) * 7) 7 9 11 = paginationPipeline (-1) 0 3 7
    ∧ paginationPipeline (-1) 0 3 7 = ((3, 7), ((3 - 1) * 7, 7)) :=
  pagination_equivalence 3 7 (by decide) (by decide) (by decide) (by decide)
    (-1) 0 9 11 (Or.inl (by decide))

/-! ## Filter criteria data model (`pkg/domain/filter.go`) -/

/-- Go `interface{}` filter values: integers, strings, booleans, `nil`,
and homogeneous slices (`[]interface{}`). -/
inductive Val where
  | vInt (n : Int)
  | vStr (s : String)
  | vBool (b : Bool)
  | vNull
  | vList (l : List Val)

mutual

/-- Structural equality test for `Val`. -/
def Val.beq : Val → Val → Bool
  | .vInt a, .vInt b => a == b
  | .vStr a, .vStr b => a == b
  | .vBool a, .vBool b => a == b
  | .vNull, .vNull => true
  | .vList a, .vList b => Val.beqList a b
  | _, _ => false

/-- Structural equality test for lists of `Val`. -/
def Val.beqList : List Val → List Val → Bool
  | [], [] => true
  | a :: as, b :: bs => Val.beq a b && Val.beqList as bs
  | _, _ => false

end

mutual

theorem Val.beq_iff : ∀ a b : Val, Val.beq a b = true ↔ a = b
  | .vInt a, .vInt b => by simp [Val.beq]
  | .vStr a, .vStr b => by simp [Val.beq]
  | .vBool a, .vBool b => by simp [Val.beq]
  | .vNull, .vNull => by simp [Val.beq]
  | .vList a, .vList b => by
      simp only [Val.beq, Val.vList.injEq]
      exact Val.beqList_iff a b
  | .vInt _, .vStr _ => by simp [Val.beq]
  | .vInt _, .vBool _ => by simp [Val.beq]
  | .vInt _, .vNull => by simp [Val.beq]
  | .vInt _, .vList _ => by simp [Val.beq]
  | .vStr _, .vInt _ => by simp [Val.beq]
  | .vStr _, .vBool _ => by simp [Val.beq]
  | .vStr _, .vNull => by simp [Val.beq]
  | .vStr _, .vList _ => by simp [Val.beq]
  | .vBool _, .vInt _ => by simp [Val.beq]
  | .vBool _, .vStr _ => by simp [Val.beq]
  | .vBool _, .vNull => by simp [Val.beq]
  | .vBool _, .vList _ => by simp [Val.beq]
  | .vNull, .vInt _ => by simp [Val.beq]
  | .vNull, .vStr _ => by simp [Val.beq]
  | .vNull, .vBool _ => by simp [Val.beq]
  | .vNull, .vList _ => by simp [Val.beq]
  | .vList _, .vInt _ => by simp [Val.beq]
  | .vList _, .vStr _ => by simp [Val.beq]
  | .vList _, .vBool _ => by simp [Val.beq]
  | .vList _, .vNull => by simp [Val.beq]

theorem Val.beqList_iff : ∀ a b : List Val, Val.beqList a b = true ↔ a = b
  | [], [] => by simp [Val.beqList]
  | a :: as, b :: bs => by
      simp only [Val.beqList, Bool.and_eq_true, List.cons.injEq]
      exact and_congr (Val.beq_iff a b) (Val.beqList_iff as bs)
  | [], _ :: _ => by simp [Val.beqList]
  | _ :: _, [] => by simp [Val.beqList]

end

instance : DecidableEq Val := fun a b =>
  decidable_of_iff (Val.beq a b = true) (Val.beq_iff a b)

/-- Operator tokens (`FilterOperator` constants in `pkg/domain/filter.go`). -/
def FilterOperatorEqual : String := "eq"

def FilterOperatorNotEqual : String := "neq"

def FilterOperatorGreaterThan : String := "gt"

def FilterOperatorGreaterEqual : String := "gte"

def FilterOperatorLessThan : String := "lt"

def FilterOperatorLessEqual : String := "lte"

def FilterOperatorLike : String := "like"

def FilterOperatorIn : String := "in"

def FilterOperatorNotIn : String := "not_in"

def FilterOperatorIsNull : String := "is_null"

def FilterOperatorIsNotNull : String := "is_not_null"

def FilterOperatorBetween : String := "between"

def FilterOperatorContains : String := "contains"

def FilterOperatorHas : String := "has"

/-- The 14 recognized operator tokens, in source order. -/
def recognizedOperators : List String :=
  [FilterOperatorEqual, FilterOperatorNotEqual, FilterOperatorGreaterThan,
   FilterOperatorGreaterEqual, FilterOperatorLessThan, FilterOperatorLessEqual,
   FilterOperatorLike, FilterOperatorIn, FilterOperatorNotIn,
   FilterOperatorIsNull, FilterOperatorIsNotNull, FilterOperatorBetween,
   FilterOperatorContains, FilterOperatorHas]

/-- Logical operator tokens; the Go zero value of the string type is `""`
(an unset `logicalOp`). -/
def LogicalOperatorAnd : String := "and"

def LogicalOperatorOr : String := "or"

/-- `FilterCriteria`: leaf `{field, operator, value, values}` or group
(`group` non-empty).  `logicalOp` governs how the *next* criterion in a
sequence combines.  Go `nil`/zero values: `value = vNull`, `values = []`,
`logicalOp = ""`, `group = []`. -/
inductive FilterCriteria where
  | mk (field operator : String) (value : Val) (values : List Val)
      (logicalOp : String) (group : List FilterCriteria)

def FilterCriteria.field : FilterCriteria → String
  | .mk f _ _ _ _ _ => f

def FilterCriteria.operator : FilterCriteria → String
  | .mk _ o _ _ _ _ => o

def FilterCriteria.value : FilterCriteria → Val
  | .mk _ _ v _ _ _ => v

def FilterCriteria.values : FilterCriteria → List Val
  | .mk _ _ _ vs _ _ => vs

def FilterCriteria.logicalOp : FilterCriteria → String
  | .mk _ _ _ _ lop _ => lop

def FilterCriteria.group : FilterCriteria → List FilterCriteria
  | .mk _ _ _ _ _ g => g

/-- Field update `criteria[i].LogicalOp = op` on a single record. -/
def FilterCriteria.withLogicalOp (c : FilterCriteria) (op : String) : FilterCriteria :=
  match c with
  | .mk f o v vs _ g => .mk f o v vs op g

/-! ## Identifier builder (`pkg/domain/identifier.go`) -/

/-- `IdentifierBuilder`: a fluent accumulator of filter criteria.  Every
mutator clones the criteria slice, so each operation is modelled as a pure
function from the receiver's criteria to the new builder's criteria. -/
structure IdentifierBuilder where
  criteria : List FilterCriteria

/-- `NewIdentifier()`: empty builder. -/
def NewIdentifier : IdentifierBuilder := ⟨[]⟩

/-- `addCriteria`: clone the current sequence and append one criterion. -/
def IdentifierBuilder.addCriteria (ib : IdentifierBuilder) (c : FilterCriteria) :
    IdentifierBuilder :=
  ⟨ib.criteria ++ [c]⟩

def IdentifierBuilder.Equal (ib : IdentifierBuilder) (field : String) (value : Val) :
    IdentifierBuilder :=
  ib.addCriteria (.mk field FilterOperatorEqual value [] "" [])

def IdentifierBuilder.NotEqual (ib : IdentifierBuilder) (field : String) (value : Val) :
    IdentifierBuilder :=
  ib.addCriteria (.mk field FilterOperatorNotEqual value [] "" [])

def IdentifierBuilder.GreaterThan (ib : IdentifierBuilder) (field : String) (value : Val) :
    IdentifierBuilder :=
  ib.addCriteria (.mk field FilterOperatorGreaterThan value [] "" [])

def IdentifierBuilder.GreaterOrEqual (ib : IdentifierBuilder) (field : String) (value : Val) :
    IdentifierBuilder :=
  ib.addCriteria (.mk field FilterOperatorGreaterEqual value [] "" [])

def IdentifierBuilder.LessThan (ib : IdentifierBuilder) (field : String) (value : Val) :
    IdentifierBuilder :=
  ib.addCriteria (.mk field FilterOperatorLessThan value [] "" [])

def IdentifierBuilder.LessOrEqual (ib : IdentifierBuilder) (field : String) (value : Val) :
    IdentifierBuilder :=
  ib.addCriteria (.mk field FilterOperatorLessEqual value [] "" [])

def IdentifierBuilder.Like (ib : IdentifierBuilder) (field : String) (value : String) :
    IdentifierBuilder :=
  ib.addCriteria (.mk field FilterOperatorLike (.vStr value) [] "" [])

def IdentifierBuilder.In (ib : IdentifierBuilder) (field : String) (values : List Val) :
    IdentifierBuilder :=
  ib.addCriteria (.mk field FilterOperatorIn .vNull values "" [])

def IdentifierBuilder.NotIn (ib : IdentifierBuilder) (field : String) (values : List Val) :
    IdentifierBuilder :=
  ib.addCriteria (.mk field FilterOperatorNotIn .vNull values "" [])

def IdentifierBuilder.IsNull (ib : IdentifierBuilder) (field : String) :
    IdentifierBuilder :=
  ib.addCriteria (.mk field FilterOperatorIsNull .vNull [] "" [])

def IdentifierBuilder.IsNotNull (ib : IdentifierBuilder) (field : String) :
    IdentifierBuilder :=
  ib.addCriteria (.mk field FilterOperatorIsNotNull .vNull [] "" [])

def IdentifierBuilder.Between (ib : IdentifierBuilder) (field : String) (start stop : Val) :
    IdentifierBuilder :=
  ib.addCriteria (.mk field FilterOperatorBetween .vNull [start, stop] "" [])

def IdentifierBuilder.Contains (ib : IdentifierBuilder) (field : String) (value : Val) :
    IdentifierBuilder :=
  ib.addCriteria (.mk field FilterOperatorContains value [] "" [])

def IdentifierBuilder.Has (ib : IdentifierBuilder) (field : String) :
    IdentifierBuilder :=
  ib.addCriteria (.mk field FilterOperatorHas .vNull [] "" [])

/-- `ToFilterCriteria()`: a defensive copy of the accumulated sequence
(the Go `nil`-when-empty result and the empty slice are both `[]`). -/
def IdentifierBuilder.ToFilterCriteria (ib : IdentifierBuilder) : List FilterCriteria :=
  ib.criteria

/-- `Reset()`: a fresh empty builder. -/
def IdentifierBuilder.Reset (_ib : IdentifierBuilder) : IdentifierBuilder := ⟨[]⟩

/-- The in-place assignment `criteria[len-1].LogicalOp = op` performed by
`And`/`Or` on the clone. -/
def setLastLogicalOp (l : List FilterCriteria) (op : String) : List FilterCriteria :=
  match l with
  | [] => []
  | [c] => [c.withLogicalOp op]
  | c :: rest => c :: setLastLogicalOp rest op

/-- Result of `And`/`Or`: either the very receiver (the Go code returns
`ib` itself, no clone) or a freshly allocated builder. -/
inductive BuilderResult where
  | receiver
  | fresh (b : IdentifierBuilder)

/-- `And(other)` from `pkg/domain/identifier.go`: nil or empty `other`
returns the receiver itself; otherwise clone, tag the clone's last
criterion with `and`, and append `other`'s flattened criteria. -/
def IdentifierBuilder.andCombine (ib : IdentifierBuilder)
    (other : Option IdentifierBuilder) : BuilderResult :=
  match other with
  | none => .receiver
  | some o =>
    let otherCriteria := o.ToFilterCriteria
    if otherCriteria.length = 0 then .receiver
    else
      .fresh ⟨(if ib.criteria.length > 0 then
                 setLastLogicalOp ib.criteria LogicalOperatorAnd
               else ib.criteria) ++ otherCriteria⟩

/-- `Or(other)`: same shape as `And` with the `or` tag. -/
def IdentifierBuilder.orCombine (ib : IdentifierBuilder)
    (other : Option IdentifierBuilder) : BuilderResult :=
  match other with
  | none => .receiver
  | some o =>
    let otherCriteria := o.ToFilterCriteria
    if otherCriteria.length = 0 then .receiver
    else
      .fresh ⟨(if ib.criteria.length > 0 then
                 setLastLogicalOp ib.criteria LogicalOperatorOr
               else ib.criteria) ++ otherCriteria⟩

/-- The builder value a caller observes: the receiver itself in the
aliasing case, the fresh builder otherwise. -/
def BuilderResult.resolve (r : BuilderResult) (receiver : IdentifierBuilder) :
    IdentifierBuilder :=
  match r with
  | .receiver => receiver
  | .fresh b => b

/-- The in-place tag of the last element equals: drop the last element,
re-append it with its `logicalOp` replaced. -/
theorem setLastLogicalOp_eq (op : String) :
    ∀ (l : List FilterCriteria) (h : l ≠ []),
    setLastLogicalOp l op = l.dropLast ++ [(l.getLast h).withLogicalOp op]
  | [], h => absurd rfl h
  | [_], _ => by simp [setLastLogicalOp]
  | c :: d :: rest, _ => by
      have ih := setLastLogicalOp_eq op (d :: rest) (by simp)
      simp only [setLastLogicalOp, ih, List.dropLast_cons₂, List.getLast_cons_cons,
        List.cons_append]

/-- C7: every comparison operation on the identifier builder returns a
builder whose criteria sequence is the receiver's with exactly one leaf
criterion appended (the receiver itself, being a value, is unchanged);
in particular the length grows by exactly one. -/
theorem builder_comparison_ops_append (ib : IdentifierBuilder) (f s : String)
    (v a b : Val) (vs : List Val) :
    (ib.Equal f v).ToFilterCriteria
      = ib.ToFilterCriteria ++ [.mk f FilterOperatorEqual v [] "" []]
    ∧ (ib.NotEqual f v).ToFilterCriteria
      = ib.ToFilterCriteria ++ [.mk f FilterOperatorNotEqual v [] "" []]
    ∧ (ib.GreaterThan f v).ToFilterCriteria
      = ib.ToFilterCriteria ++ [.mk f FilterOperatorGreaterThan v [] "" []]
    ∧ (ib.GreaterOrEqual f v).ToFilterCriteria
      = ib.ToFilterCriteria ++ [.mk f FilterOperatorGreaterEqual v [] "" []]
    ∧ (ib.LessThan f v).ToFilterCriteria
      = ib.ToFilterCriteria ++ [.mk f FilterOperatorLessThan v [] "" []]
    ∧ (ib.LessOrEqual f v).ToFilterCriteria
      = ib.ToFilterCriteria ++ [.mk f FilterOperatorLessEqual v [] "" []]
    ∧ (ib.Like f s).ToFilterCriteria
      = ib.ToFilterCriteria ++ [.mk f FilterOperatorLike (.vStr s) [] "" []]
    ∧ (ib.In f vs).ToFilterCriteria
      = ib.ToFilterCriteria ++ [.mk f FilterOperatorIn .vNull vs "" []]
    ∧ (ib.NotIn f vs).ToFilterCriteria
      = ib.ToFilterCriteria ++ [.mk f FilterOperatorNotIn .vNull vs "" []]
    ∧ (ib.IsNull f).ToFilterCriteria
      = ib.ToFilterCriteria ++ [.mk f FilterOperatorIsNull .vNull [] "" []]
    ∧ (ib.IsNotNull f).ToFilterCriteria
      = ib.ToFilterCriteria ++ [.mk f FilterOperatorIsNotNull .vNull [] "" []]
    ∧ (ib.Between f a b).ToFilterCriteria
      = ib.ToFilterCriteria ++ [.mk f FilterOperatorBetween .vNull [a, b] "" []]
    ∧ (ib.Contains f v).ToFilterCriteria
      = ib.ToFilterCriteria ++ [.mk f FilterOperatorContains v [] "" []]
    ∧ (ib.Has f).ToFilterCriteria
      = ib.ToFilterCriteria ++ [.mk f FilterOperatorHas .vNull [] "" []]
    ∧ (ib.Equal f v).ToFilterCriteria.length = ib.ToFilterCriteria.length + 1 := by
  refine ⟨rfl, rfl, rfl, rfl, rfl, rfl, rfl, rfl, rfl, rfl, rfl, rfl, rfl, rfl, ?_⟩
  simp [IdentifierBuilder.Equal, IdentifierBuilder.addCriteria,
    IdentifierBuilder.ToFilterCriteria]

/-- C6: `And`/`Or` return the very receiver exactly when `other` is nil or
flattens to an empty sequence; otherwise they return a fresh builder whose
criteria are the receiver's with the last element's `logicalOp` set to
and/or (when the receiver is non-empty) followed by `other`'s flattened
criteria; and the concrete two-criteria example has `logicalOp = "and"` on
index 0 and an unset `logicalOp` on index 1. -/
theorem builder_and_or_combine (ib o : IdentifierBuilder)
    (other : Option IdentifierBuilder) :
    (ib.andCombine other = .receiver ↔ ∀ c, other = some c → c.ToFilterCriteria = [])
    ∧ (ib.orCombine other = .receiver ↔ ∀ c, other = some c → c.ToFilterCriteria = [])
    ∧ (o.ToFilterCriteria ≠ [] → ∀ h : ib.criteria ≠ [],
        ib.andCombine (some o)
          = .fresh ⟨(ib.criteria.dropLast
              ++ [(ib.criteria.getLast h).withLogicalOp LogicalOperatorAnd])
              ++ o.ToFilterCriteria⟩)
    ∧ (o.ToFilterCriteria ≠ [] → ∀ h : ib.criteria ≠ [],
        ib.orCombine (some o)
          = .fresh ⟨(ib.criteria.dropLast
              ++ [(ib.criteria.getLast h).withLogicalOp LogicalOperatorOr])
              ++ o.ToFilterCriteria⟩)
    ∧ (o.ToFilterCriteria ≠ [] → ib.criteria = [] →
        ib.andCombine (some o) = .fresh ⟨o.ToFilterCriteria⟩)
    ∧ ((NewIdentifier.Equal "x" (.vInt 1)).andCombine
         (some (NewIdentifier.Equal "y" (.vInt 2)))
        = .fresh ⟨[.mk "x" FilterOperatorEqual (.vInt 1) [] LogicalOperatorAnd [],
                   .mk "y" FilterOperatorEqual (.vInt 2) [] "" []]⟩) := by
  refine ⟨?_, ?_, ?_, ?_, ?_, rfl⟩
  · cases other with
    | none => simp [IdentifierBuilder.andCombine]
    | some c =>
        simp only [IdentifierBuilder.andCombine, IdentifierBuilder.ToFilterCriteria]
        split
        · simp_all [List.length_eq_zero]
        · simp_all [List.length_eq_zero]
  · cases other with
    | none => simp [IdentifierBuilder.orCombine]
    | some c =>
        simp only [IdentifierBuilder.orCombine, IdentifierBuilder.ToFilterCriteria]
        split
        · simp_all [List.length_eq_zero]
        · simp_all [List.length_eq_zero]
  · intro hne h
    simp only [IdentifierBuilder.andCombine, IdentifierBuilder.ToFilterCriteria]
    rw [if_neg (by simpa [List.length_eq_zero] using hne),
      if_pos (by simpa [List.length_pos] using h), setLastLogicalOp_eq _ _ h]
  · intro hne h
    simp only [IdentifierBuilder.orCombine, IdentifierBuilder.ToFilterCriteria]
    rw [if_neg (by simpa [List.length_eq_zero] using hne),
      if_pos (by simpa [List.length_pos] using h), setLastLogicalOp_eq _ _ h]
  · intro hne hempty
    simp only [IdentifierBuilder.andCombine, IdentifierBuilder.ToFilterCriteria]
    rw [if_neg (by simpa [List.length_eq_zero] using hne), hempty]
    simp

/-- Concrete instance of the C6 fresh-combination case: a one-criterion
receiver `And`-combined with a one-criterion builder. -/
theorem builder_and_or_combine_witness :
    (⟨[FilterCriteria.mk "a" "eq" (.vInt 1) [] "" []]⟩ : IdentifierBuilder).andCombine
      (some ⟨[FilterCriteria.mk "b" "eq" (.vInt 2) [] "" []]⟩)
      = .fresh ⟨[FilterCriteria.mk "a" "eq" (.vInt 1) [] "and" [],
                 FilterCriteria.mk "b" "eq" (.vInt 2) [] "" []]⟩ := by
  have h := (builder_and_or_combine ⟨[FilterCriteria.mk "a" "eq" (.vInt 1) [] "" []]⟩
      ⟨[FilterCriteria.mk "b" "eq" (.vInt 2) [] "" []]⟩ none).2.2.1
      (by simp [IdentifierBuilder.ToFilterCriteria]) (by simp)
  simpa [IdentifierBuilder.ToFilterCriteria, List.getLast,
    FilterCriteria.withLogicalOp, LogicalOperatorAnd] using h

/-! ## Relational (GORM) filter translator (`FilterApplier`, `unnamed/part_002`)

A `gorm.DB` query under construction is modelled as an AST recording the
`Where`/`Or` calls made on it.  `Where` conjoins a condition with the
accumulated predicate, `Or` disjoins one (§4.4 of the spec fixes this
combination semantics for the external GORM collaborator). -/

/-- A single SQL condition string (with its bound arguments) as produced
by `applySingleFilter`, plus the soft-delete / search conditions used by
`ApplyQueryParams` and the unit of work. -/
inductive SqlCond where
  | cmp (field sqlOp : String) (v : Val)
  | likeCond (field : String) (v : Val)
  | inList (field : String) (vs : List Val)
  | notInList (field : String) (vs : List Val)
  | alwaysFalse
  | alwaysTrue
  | isNullCond (field : String)
  | isNotNullCond (field : String)
  | betweenCond (field : String) (lo hi : Val)
  | containsJson (field : String) (v : Val)
  | hasJson (field : String) (v : Val)
  | emptyCond
  | searchCond (s : String)
  | deletedAtIsNull
  | deletedAtIsNotNull
deriving DecidableEq

/-- A GORM query under construction. -/
inductive GormQuery where
  | base
  | whereCond (q : GormQuery) (c : SqlCond)
  | orCond (q : GormQuery) (c : SqlCond)
  | whereSub (q : GormQuery) (sub : GormQuery)
  | orSub (q : GormQuery) (sub : GormQuery)
  | unscoped (q : GormQuery)
  | order (q : GormQuery) (field dir : String)
  | preload (q : GormQuery) (assoc : String)
deriving DecidableEq

/-- The switch of `applySingleFilter`: the condition (if any) built for a
leaf criterion.  `none` is the `default` branch (unknown operator, filter
skipped); `between` with fewer than two values leaves the Go `condition`
string empty, which is still applied (`emptyCond`). -/
def condFor (c : FilterCriteria) : Option SqlCond :=
  if c.operator = FilterOperatorEqual then some (.cmp c.field "=" c.value)
  else if c.operator = FilterOperatorNotEqual then some (.cmp c.field "!=" c.value)
  else if c.operator = FilterOperatorGreaterThan then some (.cmp c.field ">" c.value)
  else if c.operator = FilterOperatorGreaterEqual then some (.cmp c.field ">=" c.value)
  else if c.operator = FilterOperatorLessThan then some (.cmp c.field "<" c.value)
  else if c.operator = FilterOperatorLessEqual then some (.cmp c.field "<=" c.value)
  else if c.operator = FilterOperatorLike then some (.likeCond c.field c.value)
  else if c.operator = FilterOperatorIn then
    some (if c.values.length > 0 then .inList c.field c.values else .alwaysFalse)
  else if c.operator = FilterOperatorNotIn then
    some (if c.values.length > 0 then .notInList c.field c.values else .alwaysTrue)
  else if c.operator = FilterOperatorIsNull then some (.isNullCond c.field)
  else if c.operator = FilterOperatorIsNotNull then some (.isNotNullCond c.field)
  else if c.operator = FilterOperatorBetween then
    some (if c.values.length ≥ 2 then
            .betweenCond c.field (c.values.getD 0 .vNull) (c.values.getD 1 .vNull)
          else .emptyCond)
  else if c.operator = FilterOperatorContains then some (.containsJson c.field c.value)
  else if c.operator = FilterOperatorHas then some (.hasJson c.field c.value)
  else none

/-- `if isFirst { Where } else if useOr { Or } else { Where }`. -/
def attachCond (q : GormQuery) (c : SqlCond) (isFirst useOr : Bool) : GormQuery :=
  if isFirst then .whereCond q c else if useOr then .orCond q c else .whereCond q c

/-- `applySingleFilter`: build the condition for a leaf criterion and
attach it; unknown operators return the query unchanged. -/
def applySingleFilter (q : GormQuery) (c : FilterCriteria) (isFirst useOr : Bool) :
    GormQuery :=
  match condFor c with
  | none => q
  | some cond => attachCond q cond isFirst useOr

mutual

/-- `applyFilter`: group criteria go through `applyGroupFilter`
(a sub-query built from a fresh session), leaves through
`applySingleFilter`. -/
def applyFilter (q : GormQuery) : FilterCriteria → Bool → Bool → GormQuery
  | .mk f o v vs lop [], isFirst, useOr =>
      applySingleFilter q (.mk f o v vs lop []) isFirst useOr
  | .mk _ _ _ _ _ (g1 :: grest), isFirst, useOr =>
      let groupQuery := applyFiltersLoop GormQuery.base none (g1 :: grest)
      if isFirst then .whereSub q groupQuery
      else if useOr then .orSub q groupQuery
      else .whereSub q groupQuery

/-- The loop of `ApplyFilters`: the i-th criterion is first iff there is
no previous one, and combines with `Or` iff the previous criterion's
`logicalOp` is `or`. -/
def applyFiltersLoop (q : GormQuery) (prev : Option FilterCriteria) :
    List FilterCriteria → GormQuery
  | [] => q
  | c :: rest =>
      let useOr := match prev with
        | none => false
        | some p => decide (p.logicalOp = LogicalOperatorOr)
      applyFiltersLoop (applyFilter q c prev.isNone useOr) (some c) rest

end

/-- `FilterApplier.ApplyFilters`: empty sequences leave the query
untouched; otherwise run the indexed loop. -/
def ApplyFilters (q : GormQuery) (filters : List FilterCriteria) : GormQuery :=
  if filters.length = 0 then q else applyFiltersLoop q none filters

/-! ## Query parameters and `ApplyQueryParams` -/

/-- `SortField` from `pkg/infrastructure/query`. -/
structure SortField where
  field : String
  order : String
deriving DecidableEq

/-- `QueryParams` (scalar pagination fields plus the owned sequences and
soft-delete visibility flags). -/
structure QueryParams where
  page : Int := 1
  pageSize : Int := 50
  offset : Int := 0
  limit : Int := 0
  computedOffset : Int := 0
  computedLimit : Int := 0
  search : String := ""
  sort : List SortField := []
  filters : List FilterCriteria := []
  includeDeleted : Bool := false
  onlyDeleted : Bool := false
  preloads : List String := []

/-- Filters section of `ApplyQueryParams`: applied only when non-empty. -/
def applyQueryParamsFilters (q : GormQuery) (p : QueryParams) : GormQuery :=
  if p.filters.length > 0 then ApplyFilters q p.filters else q

/-- Search section: `CAST(id AS TEXT) LIKE %search%` when non-empty. -/
def applyQueryParamsSearch (q : GormQuery) (p : QueryParams) : GormQuery :=
  if p.search ≠ "" then .whereCond q (.searchCond p.search) else q

/-- Soft-delete visibility section: `onlyDeleted` wins, then
`includeDeleted`, else default exclusion. -/
def applyQueryParamsVisibility (q : GormQuery) (p : QueryParams) : GormQuery :=
  if p.onlyDeleted then .whereCond (.unscoped q) .deletedAtIsNotNull
  else if !p.includeDeleted then .whereCond q .deletedAtIsNull
  else .unscoped q

/-- Sort section: each sort entry adds an `Order` clause, an empty sort
list adds the default `Order("id ASC")`. -/
def applyQueryParamsSort (q : GormQuery) (p : QueryParams) : GormQuery :=
  if p.sort.length > 0 then
    p.sort.foldl (fun acc s => .order acc s.field s.order) q
  else .order q "id" "ASC"

/-- Preloads section: one `Preload` clause per entry. -/
def applyQueryParamsPreloads (q : GormQuery) (p : QueryParams) : GormQuery :=
  p.preloads.foldl (fun acc s => .preload acc s) q

/-- `FilterApplier.ApplyQueryParams` on a (non-nil) `QueryParams`:
filters, then search, then soft-delete visibility, then sorting, then
preloads — in source order. -/
def ApplyQueryParams (q : GormQuery) (p : QueryParams) : GormQuery :=
  applyQueryParamsPreloads
    (applyQueryParamsSort
      (applyQueryParamsVisibility
        (applyQueryParamsSearch (applyQueryParamsFilters q p) p) p) p) p

/-! ## Evaluation semantics for relational queries

Entities carry an integer primary key, named fields and the soft-delete
marker.  External collaborators (SQL LIKE, the JSON operators) are
parameters. -/

/-- Persisted row: primary key, remaining columns, soft-delete marker. -/
structure Entity where
  id : Int
  fields : List (String × Val)
  deletedAt : Option Nat
deriving DecidableEq

/-- Semantics of external collaborators that the verified code only
drives, never implements: the SQL LIKE matcher, the MongoDB regex engine
and the PostgreSQL JSON operators. -/
structure ExternalSem where
  sqlLike : String → String → Bool
  regexMatch : String → String → Bool
  jsonContains : Val → Val → Bool
  jsonHas : Val → Val → Bool

/-- A trivial instantiation of the external collaborators, used to
instantiate universally quantified theorems at concrete inputs. -/
def trivSem : ExternalSem :=
  ⟨fun _ _ => false, fun _ _ => false, fun _ _ => false, fun _ _ => false⟩

/-- First-match lookup in an association list (also used for documents). -/
def assocLookup : List (String × Val) → String → Option Val
  | [], _ => none
  | (k, v) :: rest, f => if k = f then some v else assocLookup rest f

/-- Column access: `id` is the primary key, other columns come from
`fields`; a missing column reads as SQL NULL. -/
def Entity.getVal (e : Entity) (f : String) : Val :=
  if f = "id" then .vInt e.id
  else match assocLookup e.fields f with
    | some v => v
    | none => .vNull

/-- Strict value ordering used by comparison operators: integers
numerically, strings lexicographically, other shapes are not ordered. -/
def valLt : Val → Val → Bool
  | .vInt a, .vInt b => decide (a < b)
  | .vStr a, .vStr b => decide (a < b)
  | _, _ => false

/-- SQL comparison with NULL propagation: any comparison against NULL is
not satisfied. -/
def sqlCompare (sqlOp : String) (a b : Val) : Bool :=
  if a = .vNull ∨ b = .vNull then false
  else if sqlOp = "=" then a == b
  else if sqlOp = "!=" then a != b
  else if sqlOp = ">" then valLt b a
  else if sqlOp = ">=" then valLt b a || a == b
  else if sqlOp = "<" then valLt a b
  else if sqlOp = "<=" then valLt a b || a == b
  else false

/-- Row-level truth of one SQL condition. -/
def evalSqlCond (sem : ExternalSem) (c : SqlCond) (e : Entity) : Bool :=
  match c with
  | .cmp field sqlOp v => sqlCompare sqlOp (e.getVal field) v
  | .likeCond field v =>
      match e.getVal field, v with
      | .vStr s, .vStr pat => sem.sqlLike pat s
      | _, _ => false
  | .inList field vs => e.getVal field != .vNull && vs.contains (e.getVal field)
  | .notInList field vs => e.getVal field != .vNull && !vs.contains (e.getVal field)
  | .alwaysFalse => false
  | .alwaysTrue => true
  | .isNullCond field => e.getVal field == .vNull
  | .isNotNullCond field => e.getVal field != .vNull
  | .betweenCond field lo hi =>
      sqlCompare ">=" (e.getVal field) lo && sqlCompare "<=" (e.getVal field) hi
  | .containsJson field v => sem.jsonContains (e.getVal field) v
  | .hasJson field v => sem.jsonHas (e.getVal field) v
  | .emptyCond => true
  | .searchCond s => sem.sqlLike ("%" ++ s ++ "%") (toString e.id)
  | .deletedAtIsNull => e.deletedAt.isNone
  | .deletedAtIsNotNull => e.deletedAt.isSome

/-- Row-level truth of the accumulated predicate: `Where` conjoins, `Or`
disjoins, sub-queries are evaluated in isolation, ordering/preload/
unscoped clauses do not affect matching. -/
def evalQuery (sem : ExternalSem) : GormQuery → Entity → Bool
  | .base, _ => true
  | .whereCond q c, e => evalQuery sem q e && evalSqlCond sem c e
  | .orCond q c, e => evalQuery sem q e || evalSqlCond sem c e
  | .whereSub q sub, e => evalQuery sem q e && evalQuery sem sub e
  | .orSub q sub, e => evalQuery sem q e || evalQuery sem sub e
  | .unscoped q, e => evalQuery sem q e
  | .order q _ _, e => evalQuery sem q e
  | .preload q _, e => evalQuery sem q e

/-- Whether `Unscoped()` was called on the query chain (sub-queries are
separate sessions and do not leak). -/
def hasUnscoped : GormQuery → Bool
  | .base => false
  | .whereCond q _ => hasUnscoped q
  | .orCond q _ => hasUnscoped q
  | .whereSub q _ => hasUnscoped q
  | .orSub q _ => hasUnscoped q
  | .unscoped _ => true
  | .order q _ _ => hasUnscoped q
  | .preload q _ => hasUnscoped q

/-- Full row-level match including GORM's soft-delete default scope:
without `Unscoped()`, soft-deleted rows are invisible. -/
def topMatches (sem : ExternalSem) (q : GormQuery) (e : Entity) : Bool :=
  evalQuery sem q e && (hasUnscoped q || e.deletedAt.isNone)

/-! ## Document-store (MongoDB) filter translator
(`MongoFilterApplier`, `unnamed/part_003`) -/

/-- The per-field condition stored into the `bson.M` filter map. -/
inductive MongoCond where
  | eqV (v : Val)
  | neV (v : Val)
  | gtV (v : Val)
  | gteV (v : Val)
  | ltV (v : Val)
  | lteV (v : Val)
  | regexI (pattern : String)
  | inV (v : Val)
  | ninV (v : Val)
  | betweenV (lo hi : Val)
  | existsFalse
  | existsTrueNeNull
  | elemMatchEq (v : Val)
deriving DecidableEq

/-- A `bson.M` filter document: a string-keyed map modelled as an
association list with Go's overwrite-on-assign semantics. -/
abbrev BsonM := List (String × MongoCond)

/-- `filter[key] = cond` on a Go map: replace an existing binding in
place, else append. -/
def goMapInsert : BsonM → String → MongoCond → BsonM
  | [], k, v => [(k, v)]
  | (k', v') :: rest, k, v =>
      if k' = k then (k, v) :: rest else (k', v') :: goMapInsert rest k v

/-- Map lookup. -/
def goMapLookup : BsonM → String → Option MongoCond
  | [], _ => none
  | (k', v') :: rest, k => if k' = k then some v' else goMapLookup rest k

/-- `convertLikeToRegex`: escape regex metacharacters, then translate the
SQL wildcards and anchor the pattern. -/
def convertLikeToRegex (likePattern : String) : String :=
  let escaped := likePattern.replace "\\" "\\\\"
  let escaped := escaped.replace "." "\\."
  let escaped := escaped.replace "^" "\\^"
  let escaped := escaped.replace "$" "\\$"
  let escaped := escaped.replace "*" "\\*"
  let escaped := escaped.replace "+" "\\+"
  let escaped := escaped.replace "?" "\\?"
  let escaped := escaped.replace "(" "\\("
  let escaped := escaped.replace ")" "\\)"
  let escaped := escaped.replace "[" "\\["
  let escaped := escaped.replace "]" "\\]"
  let escaped := escaped.replace "\x7b" "\\\x7b"
  let escaped := escaped.replace "\x7d" "\\\x7d"
  let escaped := escaped.replace "|" "\\|"
  let escaped := escaped.replace "%" ".*"
  let escaped := escaped.replace "_" "."
  "^" ++ escaped ++ "$"

/-- Outcome of the `applyFilterCriteria` switch for one criterion: write
one entry under the criterion's field, do nothing (no matching case, or
`between` with a malformed value), or panic (the unchecked
`value.(string)` type assertion in the `like` branch). -/
inductive TranslateResult where
  | writesEntry (cond : MongoCond)
  | noop
  | panics
deriving DecidableEq

/-- The switch of `MongoFilterApplier.applyFilterCriteria`.  Note that
`in`/`not_in` read the scalar `Value` slot (not `Values`), and that
`logicalOp` and `group` are never consulted. -/
def translateCriterion (c : FilterCriteria) : TranslateResult :=
  if c.operator = FilterOperatorEqual then .writesEntry (.eqV c.value)
  else if c.operator = FilterOperatorNotEqual then .writesEntry (.neV c.value)
  else if c.operator = FilterOperatorGreaterThan then .writesEntry (.gtV c.value)
  else if c.operator = FilterOperatorGreaterEqual then .writesEntry (.gteV c.value)
  else if c.operator = FilterOperatorLessThan then .writesEntry (.ltV c.value)
  else if c.operator = FilterOperatorLessEqual then .writesEntry (.lteV c.value)
  else if c.operator = FilterOperatorLike then
    match c.value with
    | .vStr s => .writesEntry (.regexI (convertLikeToRegex s))
    | _ => .panics
  else if c.operator = FilterOperatorIn then .writesEntry (.inV c.value)
  else if c.operator = FilterOperatorNotIn then .writesEntry (.ninV c.value)
  else if c.operator = FilterOperatorBetween then
    match c.value with
    | .vList vs =>
        if vs.length = 2 then
          .writesEntry (.betweenV (vs.getD 0 .vNull) (vs.getD 1 .vNull))
        else .noop
    | _ => .noop
  else if c.operator = FilterOperatorIsNull then .writesEntry .existsFalse
  else if c.operator = FilterOperatorIsNotNull then .writesEntry .existsTrueNeNull
  else if c.operator = FilterOperatorContains then .writesEntry (.elemMatchEq c.value)
  else if c.operator = FilterOperatorHas then .writesEntry .existsTrueNeNull
  else .noop

/-- `applyFilterCriteria`: apply one criterion to the filter map;
`none` models the Go panic. -/
def applyFilterCriteria (filter : BsonM) (c : FilterCriteria) : Option BsonM :=
  match translateCriterion c with
  | .writesEntry cond => some (goMapInsert filter c.field cond)
  | .noop => some filter
  | .panics => none

/-- The loop over a criteria sequence (as in `BuildFilterFromIdentifier`
and the filters section of the Mongo `ApplyQueryParams`). -/
def applyAllCriteria (filter : BsonM) : List FilterCriteria → Option BsonM
  | [] => some filter
  | c :: rest =>
      match applyFilterCriteria filter c with
      | some m => applyAllCriteria m rest
      | none => none

/-- `BuildFilterFromIdentifier`: start from the empty `bson.M` and apply
every criterion of the identifier in order. -/
def BuildFilterFromIdentifier (criteria : List FilterCriteria) : Option BsonM :=
  applyAllCriteria [] criteria

/-! ### MongoDB matching semantics -/

/-- A BSON document: field name to value. -/
abbrev MongoDoc := List (String × Val)

/-- MongoDB equality match: `{field: v}` matches a document whose field
equals `v`, is an array containing `v`, or — when `v` is null — is
missing. -/
def mongoEqMatch (v : Val) : Option Val → Bool
  | none => v == Val.vNull
  | some w => w == v || (match w with | .vList ws => ws.contains v | _ => false)

/-- MongoDB `$in`-style membership of a document value in a query list. -/
def mongoInMatch (l : List Val) : Option Val → Bool
  | none => l.contains .vNull
  | some w => l.contains w || (match w with | .vList ws => ws.any l.contains | _ => false)

/-- Truth of one per-field condition against the (optional) document
value.  `none` models a MongoDB query error: `$in`/`$nin` demand an array
operand and abort the query otherwise. -/
def matchMongoCond (sem : ExternalSem) (cond : MongoCond) (dv : Option Val) :
    Option Bool :=
  match cond with
  | .eqV v => some (mongoEqMatch v dv)
  | .neV v => some (!mongoEqMatch v dv)
  | .gtV v => some (match dv with | some w => valLt v w | none => false)
  | .gteV v => some (match dv with | some w => valLt v w || w == v | none => false)
  | .ltV v => some (match dv with | some w => valLt w v | none => false)
  | .lteV v => some (match dv with | some w => valLt w v || w == v | none => false)
  | .regexI pat =>
      some (match dv with | some (.vStr s) => sem.regexMatch pat s | _ => false)
  | .inV v =>
      match v with
      | .vList l => some (mongoInMatch l dv)
      | _ => none
  | .ninV v =>
      match v with
      | .vList l => some (!mongoInMatch l dv)
      | _ => none
  | .betweenV lo hi =>
      some (match dv with
        | some w => (valLt lo w || w == lo) && (valLt w hi || w == hi)
        | none => false)
  | .existsFalse => some dv.isNone
  | .existsTrueNeNull =>
      some (match dv with | some w => w != Val.vNull | none => false)
  | .elemMatchEq v =>
      some (match dv with | some (.vList ws) => ws.contains v | _ => false)

/-- Document lookup. -/
def docLookup : MongoDoc → String → Option Val
  | [], _ => none
  | (k, v) :: rest, f => if k = f then some v else docLookup rest f

/-- Truth of a whole `bson.M` filter against a document: the conjunction
of its per-field conditions; any query error aborts the match. -/
def mongoMatches (sem : ExternalSem) (m : BsonM) (d : MongoDoc) : Option Bool :=
  match m with
  | [] => some true
  | (k, cond) :: rest =>
      match matchMongoCond sem cond (docLookup d k), mongoMatches sem rest d with
      | some b1, some b2 => some (b1 && b2)
      | _, _ => none

/-! ## The combination rule of the relational translator (C2) -/

/-- The sequence of combinators used along the spine of a query chain,
innermost first: `false` for a `Where` (AND) attachment, `true` for an
`Or` attachment. -/
def spineOps : GormQuery → List Bool
  | .base => []
  | .whereCond q _ => spineOps q ++ [false]
  | .orCond q _ => spineOps q ++ [true]
  | .whereSub q _ => spineOps q ++ [false]
  | .orSub q _ => spineOps q ++ [true]
  | .unscoped q => spineOps q
  | .order q _ _ => spineOps q
  | .preload q _ => spineOps q

/-- Whether a criterion attaches a node to the query at all: group
criteria always do, leaves only when the operator is recognized. -/
def producesNode (c : FilterCriteria) : Bool :=
  decide (c.group.length > 0) || (condFor c).isSome

/-- The OR flag dictated by the previous criterion (none for index 0). -/
def prevOrFlag : Option FilterCriteria → Bool
  | none => false
  | some p => decide (p.logicalOp = LogicalOperatorOr)

/-- Specification of the combination rule, straight from the claim: pair
each criterion with its predecessor (none at index 0); every
node-producing criterion combines via OR exactly when its predecessor's
`logicalOp` is `or`, and index 0 always via AND. -/
def c2spec (filters : List FilterCriteria) : List Bool :=
  (filters.zip ((none : Option FilterCriteria) :: filters.map some)).filterMap
    fun cp => if producesNode cp.1 then some (prevOrFlag cp.2) else none

/-- Predecessor-carrying form of `c2spec` used for the loop induction. -/
def c2specAux : Option FilterCriteria → List FilterCriteria → List Bool
  | _, [] => []
  | prev, c :: rest =>
      (if producesNode c then [prevOrFlag prev] else []) ++ c2specAux (some c) rest

theorem c2specAux_eq_zip (l : List FilterCriteria) :
    ∀ prev, c2specAux prev l
      = (l.zip (prev :: l.map some)).filterMap
          fun cp => if producesNode cp.1 then some (prevOrFlag cp.2) else none := by
  induction l with
  | nil => intro prev; rfl
  | cons c rest ih =>
      intro prev
      simp only [List.map_cons, List.zip_cons_cons, List.filterMap_cons, c2specAux, ih]
      cases h : producesNode c <;> simp [h]

theorem spineOps_attachCond (q : GormQuery) (c : SqlCond) (fi uo : Bool) :
    spineOps (attachCond q c fi uo) = spineOps q ++ [!fi && uo] := by
  unfold attachCond
  split_ifs with h1 h2 <;> simp_all [spineOps]

theorem spineOps_applySingleFilter (q : GormQuery) (c : FilterCriteria) (fi uo : Bool) :
    spineOps (applySingleFilter q c fi uo)
      = spineOps q ++ (if (condFor c).isSome then [!fi && uo] else []) := by
  unfold applySingleFilter
  cases h : condFor c <;> simp [h, spineOps_attachCond]

theorem spineOps_applyFilter (q : GormQuery) (c : FilterCriteria) (fi uo : Bool) :
    spineOps (applyFilter q c fi uo)
      = spineOps q ++ (if producesNode c then [!fi && uo] else []) := by
  cases c with
  | mk f o v vs lop g =>
      cases g with
      | nil =>
          simp only [applyFilter, spineOps_applySingleFilter, producesNode,
            FilterCriteria.group, List.length_nil]
          simp
      | cons g1 grest =>
          simp only [applyFilter, producesNode, FilterCriteria.group,
            List.length_cons]
          split_ifs with h1 h2 <;> simp_all [spineOps]

theorem prevOrFlag_absorb (prev : Option FilterCriteria) :
    (!prev.isNone && prevOrFlag prev) = prevOrFlag prev := by
  cases prev <;> simp [prevOrFlag]

theorem spineOps_applyFiltersLoop (l : List FilterCriteria) :
    ∀ (q : GormQuery) (prev : Option FilterCriteria),
    spineOps (applyFiltersLoop q prev l) = spineOps q ++ c2specAux prev l := by
  induction l with
  | nil => intro q prev; simp [applyFiltersLoop, c2specAux]
  | cons c rest ih =>
      intro q prev
      simp only [applyFiltersLoop, ih, spineOps_applyFilter, c2specAux]
      have : (!prev.isNone
          && (match prev with
              | none => false
              | some p => decide (p.logicalOp = LogicalOperatorOr))) = prevOrFlag prev :=
        prevOrFlag_absorb prev
      cases h : producesNode c <;>
        simp_all [List.append_assoc, prevOrFlag]

/-- The criteria equivalence that strips `logicalOp`: two criteria equal
in every slot the Mongo translator reads. -/
def sameUpToLogicalOp (c1 c2 : FilterCriteria) : Prop :=
  c1.field = c2.field ∧ c1.operator = c2.operator ∧ c1.value = c2.value
  ∧ c1.values = c2.values ∧ c1.group = c2.group

theorem translateCriterion_logicalOp_irrel (c1 c2 : FilterCriteria)
    (h : sameUpToLogicalOp c1 c2) :
    translateCriterion c1 = translateCriterion c2 ∧ c1.field = c2.field := by
  cases c1 with
  | mk f1 o1 v1 vs1 lop1 g1 =>
      cases c2 with
      | mk f2 o2 v2 vs2 lop2 g2 =>
          obtain ⟨hf, ho, hv, hvs, hg⟩ := h
          simp only [FilterCriteria.field, FilterCriteria.operator, FilterCriteria.value,
            FilterCriteria.values, FilterCriteria.group] at hf ho hv hvs hg
          subst hf; subst ho; subst hv; subst hvs; subst hg
          exact ⟨rfl, rfl⟩

theorem applyAllCriteria_logicalOp_irrel :
    ∀ {l1 l2 : List FilterCriteria}, List.Forall₂ sameUpToLogicalOp l1 l2 →
    ∀ m, applyAllCriteria m l1 = applyAllCriteria m l2 := by
  intro l1 l2 hrel
  induction hrel with
  | nil => intro m; rfl
  | cons hc _ ih =>
      intro m
      have ht := translateCriterion_logicalOp_irrel _ _ hc
      simp only [applyAllCriteria, applyFilterCriteria, ht.1, ht.2]
      cases translateCriterion _ <;> simp [ih]

/-- C2 (amended): the relational translator combines the first
node-producing criterion with the base predicate via AND (`Where`) and
criterion `i > 0` via OR exactly when criterion `i-1` carries
`logicalOp = or`; the document-store translator, by contrast, never
consults `logicalOp` at all — its output is invariant under arbitrary
changes of the `logicalOp` tags. -/
theorem filter_combination_rule (q : GormQuery) (filters : List FilterCriteria)
    (m : BsonM) {l1 l2 : List FilterCriteria}
    (hrel : List.Forall₂ sameUpToLogicalOp l1 l2) :
    spineOps (ApplyFilters q filters) = spineOps q ++ c2spec filters
    ∧ applyAllCriteria m l1 = applyAllCriteria m l2 := by
  constructor
  · unfold ApplyFilters
    split
    · have hf : filters = [] := by
        cases filters with
        | nil => rfl
        | cons a b => simp_all
      subst hf; simp [c2spec]
    · rw [spineOps_applyFiltersLoop, c2specAux_eq_zip]
      rfl
  · exact applyAllCriteria_logicalOp_irrel hrel m

/-- Concrete instance of C2 (amended): a two-criteria sequence with an
`or` tag on the first element attaches the second condition with `Or` on
the relational side, and the Mongo filter built from it is unchanged when
the `or` tag is dropped. -/
theorem filter_combination_rule_witness :
    spineOps (ApplyFilters .base
        [.mk "a" "eq" (.vInt 1) [] "or" [], .mk "b" "eq" (.vInt 2) [] "" []])
      = [false, true]
    ∧ applyAllCriteria []
        [.mk "a" "eq" (.vInt 1) [] "or" [], .mk "b" "eq" (.vInt 2) [] "" []]
      = applyAllCriteria []
        [.mk "a" "eq" (.vInt 1) [] "" [], .mk "b" "eq" (.vInt 2) [] "" []] := by
  have h := @filter_combination_rule .base
    [.mk "a" "eq" (.vInt 1) [] "or" [], .mk "b" "eq" (.vInt 2) [] "" []]
    []
    [.mk "a" "eq" (.vInt 1) [] "or" [], .mk "b" "eq" (.vInt 2) [] "" []]
    [.mk "a" "eq" (.vInt 1) [] "" [], .mk "b" "eq" (.vInt 2) [] "" []]
    (by refine List.Forall₂.cons ?_ (List.Forall₂.cons ?_ List.Forall₂.nil) <;>
        exact ⟨rfl, rfl, rfl, rfl, rfl⟩)
  exact ⟨h.1.trans (by decide), h.2⟩

/-- C2 counterexample: the claim as stated fails for the document-store
translator.  With `criteria = [{a eq 1, logicalOp: or}, {b eq 2}]` the
document `{a: 1, b: 3}` satisfies criterion 0, so an OR-combination of
criterion 1 would match it; the Mongo filter built from the sequence
rejects it (the map conjoins the two fields and ignores `logicalOp`). -/
theorem mongo_or_combination_counterexample :
    BuildFilterFromIdentifier
        [.mk "a" "eq" (.vInt 1) [] "or" [], .mk "b" "eq" (.vInt 2) [] "" []]
      = some [("a", .eqV (.vInt 1)), ("b", .eqV (.vInt 2))]
    ∧ mongoMatches trivSem [("a", .eqV (.vInt 1)), ("b", .eqV (.vInt 2))]
        [("a", .vInt 1), ("b", .vInt 3)] = some false
    ∧ mongoMatches trivSem [("a", .eqV (.vInt 1))]
        [("a", .vInt 1), ("b", .vInt 3)] = some true := by
  refine ⟨rfl, ?_, ?_⟩ <;> decide

/-! ## Empty `in` / `not_in` edge cases (C3) -/

/-- C3 (amended): the relational translator maps an empty `in` to the
always-false condition `1 = 0` and an empty `not_in` to the always-true
`1 = 1`.  The document-store translator reads the scalar `Value` slot:
only when the empty list is supplied there (`value = []`) does it emit
`$in: []` (matching no document) respectively `$nin: []` (matching every
document). -/
theorem empty_in_notin_edge (sem : ExternalSem) (e : Entity) (f : String)
    (d : MongoDoc) :
    evalQuery sem (ApplyFilters .base [.mk f FilterOperatorIn .vNull [] "" []]) e
      = false
    ∧ evalQuery sem (ApplyFilters .base [.mk f FilterOperatorNotIn .vNull [] "" []]) e
      = true
    ∧ BuildFilterFromIdentifier [.mk f FilterOperatorIn (.vList []) [] "" []]
      = some [(f, .inV (.vList []))]
    ∧ mongoMatches sem [(f, .inV (.vList []))] d = some false
    ∧ BuildFilterFromIdentifier [.mk f FilterOperatorNotIn (.vList []) [] "" []]
      = some [(f, .ninV (.vList []))]
    ∧ mongoMatches sem [(f, .ninV (.vList []))] d = some true := by
  have h1 : ApplyFilters .base [.mk f FilterOperatorIn .vNull [] "" []]
      = .whereCond .base .alwaysFalse := rfl
  have h2 : ApplyFilters .base [.mk f FilterOperatorNotIn .vNull [] "" []]
      = .whereCond .base .alwaysTrue := rfl
  have hin : ∀ dv, mongoInMatch [] dv = false := by
    intro dv
    cases dv with
    | none => rfl
    | some w => cases w <;> simp [mongoInMatch, List.contains]
  refine ⟨?_, ?_, rfl, ?_, rfl, ?_⟩
  · rw [h1]; simp [evalQuery, evalSqlCond]
  · rw [h2]; simp [evalQuery, evalSqlCond]
  · simp [mongoMatches, matchMongoCond, hin]
  · simp [mongoMatches, matchMongoCond, hin]

/-- C3 counterexample: the claim as stated fails for the document-store
translator on the canonical empty-`in` criterion, `In(field, [])` from the
builder, which stores the empty list in `Values` and leaves `Value = nil`.
The Mongo translator reads `Value` and emits `$in: null` — a query that
errors (`$in needs an array`) instead of matching nothing. -/
theorem mongo_empty_in_counterexample :
    (NewIdentifier.In "f" []).ToFilterCriteria
      = [.mk "f" FilterOperatorIn .vNull [] "" []]
    ∧ BuildFilterFromIdentifier ((NewIdentifier.In "f" []).ToFilterCriteria)
      = some [("f", .inV .vNull)]
    ∧ mongoMatches trivSem [("f", .inV .vNull)] [("f", .vInt 0)] = none := by
  exact ⟨rfl, rfl, rfl⟩

/-! ## Unknown operators are a silent no-op (C8) -/

/-- C8: a criterion whose operator is none of the 14 recognized tokens is
skipped by both translators: the relational translator returns the query
unchanged (for leaf criteria — a populated `group` bypasses the operator
switch entirely), and the document-store translator leaves the filter map
unchanged; neither produces an error. -/
theorem unknown_operator_noop (q : GormQuery) (m : BsonM) (c : FilterCriteria)
    (isFirst useOr : Bool)
    (hop : c.operator ∉ recognizedOperators) (hleaf : c.group = []) :
    applyFilter q c isFirst useOr = q ∧ applyFilterCriteria m c = some m := by
  simp only [recognizedOperators, List.mem_cons, List.not_mem_nil, or_false] at hop
  push_neg at hop
  obtain ⟨h1, h2, h3, h4, h5, h6, h7, h8, h9, h10, h11, h12, h13, h14⟩ := hop
  have hcond : condFor c = none := by
    simp [condFor, h1, h2, h3, h4, h5, h6, h7, h8, h9, h10, h11, h12, h13, h14]
  have htr : translateCriterion c = .noop := by
    simp [translateCriterion, h1, h2, h3, h4, h5, h6, h7, h8, h9, h10, h11, h12,
      h13, h14]
  constructor
  · cases c with
    | mk f o v vs lop g =>
        simp only [FilterCriteria.group] at hleaf
        subst hleaf
        simp [applyFilter, applySingleFilter, hcond]
  · simp [applyFilterCriteria, htr]

/-- Concrete instance of C8 at the unrecognized operator `"bogus"`. -/
theorem unknown_operator_noop_witness :
    applyFilter .base (.mk "f" "bogus" .vNull [] "" []) true false = .base
    ∧ applyFilterCriteria [] (.mk "f" "bogus" .vNull [] "" []) = some [] :=
  unknown_operator_noop .base [] (.mk "f" "bogus" .vNull [] "" []) true false
    (by decide) rfl

/-! ## Soft-delete visibility modes in `ApplyQueryParams` (C9) -/

theorem hasUnscoped_attachCond (q : GormQuery) (c : SqlCond) (fi uo : Bool) :
    hasUnscoped (attachCond q c fi uo) = hasUnscoped q := by
  unfold attachCond
  split_ifs <;> rfl

theorem hasUnscoped_applyFilter (q : GormQuery) (c : FilterCriteria) (fi uo : Bool) :
    hasUnscoped (applyFilter q c fi uo) = hasUnscoped q := by
  cases c with
  | mk f o v vs lop g =>
      cases g with
      | nil =>
          simp only [applyFilter, applySingleFilter]
          cases condFor (.mk f o v vs lop []) <;>
            simp [hasUnscoped_attachCond]
      | cons g1 grest =>
          simp only [applyFilter]
          split_ifs <;> rfl

theorem hasUnscoped_applyFiltersLoop (l : List FilterCriteria) :
    ∀ (q : GormQuery) (prev : Option FilterCriteria),
    hasUnscoped (applyFiltersLoop q prev l) = hasUnscoped q := by
  induction l with
  | nil => intro q prev; rfl
  | cons c rest ih =>
      intro q prev
      simp only [applyFiltersLoop, ih, hasUnscoped_applyFilter]

theorem hasUnscoped_applyFilters (q : GormQuery) (l : List FilterCriteria) :
    hasUnscoped (ApplyFilters q l) = hasUnscoped q := by
  unfold ApplyFilters
  split
  · rfl
  · exact hasUnscoped_applyFiltersLoop l q none

theorem evalQuery_sort (sem : ExternalSem) (p : QueryParams) (e : Entity) :
    ∀ q, evalQuery sem (applyQueryParamsSort q p) e = evalQuery sem q e := by
  unfold applyQueryParamsSort
  split
  · suffices h : ∀ (l : List SortField) (q : GormQuery),
        evalQuery sem (l.foldl (fun acc s => .order acc s.field s.order) q) e
          = evalQuery sem q e by
      intro q; exact h p.sort q
    intro l
    induction l with
    | nil => intro q; rfl
    | cons s rest ih => intro q; simp [List.foldl_cons, ih, evalQuery]
  · intro q; rfl

theorem hasUnscoped_sort (p : QueryParams) :
    ∀ q, hasUnscoped (applyQueryParamsSort q p) = hasUnscoped q := by
  unfold applyQueryParamsSort
  split
  · suffices h : ∀ (l : List SortField) (q : GormQuery),
        hasUnscoped (l.foldl (fun acc s => .order acc s.field s.order) q)
          = hasUnscoped q by
      intro q; exact h p.sort q
    intro l
    induction l with
    | nil => intro q; rfl
    | cons s rest ih => intro q; simp [List.foldl_cons, ih, hasUnscoped]
  · intro q; rfl

theorem evalQuery_preloads (sem : ExternalSem) (p : QueryParams) (e : Entity) :
    ∀ q, evalQuery sem (applyQueryParamsPreloads q p) e = evalQuery sem q e := by
  unfold applyQueryParamsPreloads
  suffices h : ∀ (l : List String) (q : GormQuery),
      evalQuery sem (l.foldl (fun acc s => .preload acc s) q) e = evalQuery sem q e by
    intro q; exact h p.preloads q
  intro l
  induction l with
  | nil => intro q; rfl
  | cons s rest ih => intro q; simp [List.foldl_cons, ih, evalQuery]

theorem hasUnscoped_preloads (p : QueryParams) :
    ∀ q, hasUnscoped (applyQueryParamsPreloads q p) = hasUnscoped q := by
  unfold applyQueryParamsPreloads
  suffices h : ∀ (l : List String) (q : GormQuery),
      hasUnscoped (l.foldl (fun acc s => .preload acc s) q) = hasUnscoped q by
    intro q; exact h p.preloads q
  intro l
  induction l with
  | nil => intro q; rfl
  | cons s rest ih => intro q; simp [List.foldl_cons, ih, hasUnscoped]

theorem hasUnscoped_filters_search (p : QueryParams) :
    hasUnscoped (applyQueryParamsSearch (applyQueryParamsFilters .base p) p) = false := by
  have h1 : hasUnscoped (applyQueryParamsFilters .base p) = false := by
    unfold applyQueryParamsFilters
    split
    · rw [hasUnscoped_applyFilters]; rfl
    · rfl
  unfold applyQueryParamsSearch
  split
  · simpa [hasUnscoped] using h1
  · exact h1

/-- C9: after the filter criteria (and search) are applied, exactly one of
the three soft-delete visibility modes governs matching, with
`onlyDeleted` taking precedence over `includeDeleted`: only-deleted
restricts to rows with a deletion marker, the default excludes marked
rows, include-deleted adds no deletion-marker restriction. -/
theorem applyQueryParams_visibility (sem : ExternalSem) (p : QueryParams) (e : Entity) :
    topMatches sem (ApplyQueryParams .base p) e
      = (evalQuery sem (applyQueryParamsSearch (applyQueryParamsFilters .base p) p) e
         && (if p.onlyDeleted then e.deletedAt.isSome
             else if !p.includeDeleted then e.deletedAt.isNone
             else true)) := by
  unfold topMatches ApplyQueryParams
  rw [evalQuery_preloads, evalQuery_sort, hasUnscoped_preloads, hasUnscoped_sort]
  unfold applyQueryParamsVisibility
  split_ifs with h1 h2
  · simp [evalQuery, evalSqlCond, hasUnscoped, h1]
  · simp only [evalQuery, evalSqlCond, hasUnscoped]
    rw [hasUnscoped_filters_search]
    simp [h1, h2, Bool.and_assoc]
  · simp only [evalQuery, hasUnscoped]
    simp [h1, h2]

/-! ## Same-field overwrite in the Mongo filter map (C10) -/

/-- The entry the sequence leaves under key `k`: the translation of the
last criterion that writes `k` (later criteria win). -/
def lastWrite : List FilterCriteria → String → Option MongoCond
  | [], _ => none
  | c :: rest, k =>
      match lastWrite rest k with
      | some v => some v
      | none =>
          match translateCriterion c with
          | .writesEntry cond => if c.field = k then some cond else none
          | _ => none

/-- Whether some criterion of the sequence panics during translation. -/
def anyPanics (l : List FilterCriteria) : Bool :=
  l.any fun c => translateCriterion c == .panics

theorem goMapLookup_insert (k : String) (v : MongoCond) :
    ∀ (m : BsonM) (k' : String), goMapLookup (goMapInsert m k v) k'
      = if k = k' then some v else goMapLookup m k'
  | [], k' => by
      by_cases h : k = k' <;> simp [goMapInsert, goMapLookup, h]
  | (k0, v0) :: rest, k' => by
      simp only [goMapInsert]
      by_cases h0 : k0 = k
      · rw [if_pos h0]
        subst h0
        by_cases h : k0 = k' <;> simp [goMapLookup, h]
      · rw [if_neg h0]
        by_cases h : k0 = k'
        · have hk : ¬ k = k' := fun hc => h0 (h.trans hc.symm)
          simp [goMapLookup, h, hk]
        · simp [goMapLookup, h, goMapLookup_insert k v rest k']

theorem applyAllCriteria_isNone (l : List FilterCriteria) :
    ∀ m, (applyAllCriteria m l).isNone = anyPanics l := by
  induction l with
  | nil => intro m; rfl
  | cons c rest ih =>
      intro m
      simp only [applyAllCriteria, applyFilterCriteria, anyPanics, List.any_cons]
      cases h : translateCriterion c <;>
        simp_all [anyPanics]

theorem applyAllCriteria_lookup (l : List FilterCriteria) :
    ∀ (m r : BsonM), applyAllCriteria m l = some r →
    ∀ k, goMapLookup r k
      = (match lastWrite l k with
         | some v => some v
         | none => goMapLookup m k) := by
  induction l with
  | nil =>
      intro m r hr k
      simp only [applyAllCriteria] at hr
      cases hr
      rfl
  | cons c rest ih =>
      intro m r hr k
      simp only [applyAllCriteria, applyFilterCriteria] at hr
      cases ht : translateCriterion c with
      | writesEntry cond =>
          rw [ht] at hr
          simp only at hr
          have := ih _ _ hr k
          rw [this, lastWrite]
          cases hlw : lastWrite rest k with
          | some v => simp
          | none =>
              simp only [ht, goMapLookup_insert]
              split_ifs with hfk <;> simp_all
      | noop =>
          rw [ht] at hr
          simp only at hr
          have := ih _ _ hr k
          rw [this, lastWrite]
          cases hlw : lastWrite rest k with
          | some v => simp
          | none => simp [ht]
      | panics =>
          rw [ht] at hr
          simp at hr

/-- Later-wins combination of two optional writes. -/
theorem lastWrite_append : ∀ (a b : List FilterCriteria) (k : String),
    lastWrite (a ++ b) k
      = (match lastWrite b k with
         | some v => some v
         | none => lastWrite a k)
  | [], b, k => by
      cases h : lastWrite b k <;> simp [h, lastWrite]
  | c :: rest, b, k => by
      have ih := lastWrite_append rest b k
      show (match lastWrite (rest ++ b) k with
            | some v => some v
            | none =>
                match translateCriterion c with
                | .writesEntry cond => if c.field = k then some cond else none
                | _ => none) = _
      rw [ih]
      cases h : lastWrite b k with
      | some v => simp
      | none => simp only; rfl

theorem lastWrite_writer_isSome (l2 l3 : List FilterCriteria) (c2 : FilterCriteria)
    (w : MongoCond) (hw : translateCriterion c2 = .writesEntry w) :
    (lastWrite (l2 ++ c2 :: l3) c2.field).isSome := by
  rw [lastWrite_append]
  have hnh : (lastWrite (c2 :: l3) c2.field).isSome = true := by
    rw [lastWrite]
    cases h : lastWrite l3 c2.field with
    | some v => simp
    | none => simp [hw]
  cases h : lastWrite (c2 :: l3) c2.field with
  | some v => simp
  | none => rw [h] at hnh; simp at hnh

/-- C10 (amended): in the document-store translator the produced filter is
a single field-keyed map; a later criterion that writes an entry for a
field overwrites any earlier same-field entry, so — provided the earlier
criterion does not abort translation (the `like` panic) and the later one
actually writes — the filter built from the full sequence agrees with the
filter built with the earlier same-field criterion removed: both error
together, and otherwise they are equal as maps (pointwise equal lookups). -/
theorem mongo_samefield_overwrite (l1 l2 l3 : List FilterCriteria)
    (c1 c2 : FilterCriteria) (w : MongoCond) (m : BsonM)
    (hnp : translateCriterion c1 ≠ .panics)
    (hw : translateCriterion c2 = .writesEntry w)
    (hf : c1.field = c2.field) :
    ((applyAllCriteria m (l1 ++ c1 :: (l2 ++ c2 :: l3))).isNone
      = (applyAllCriteria m (l1 ++ (l2 ++ c2 :: l3))).isNone)
    ∧ (∀ r1 r2, applyAllCriteria m (l1 ++ c1 :: (l2 ++ c2 :: l3)) = some r1 →
        applyAllCriteria m (l1 ++ (l2 ++ c2 :: l3)) = some r2 →
        ∀ k, goMapLookup r1 k = goMapLookup r2 k) := by
  have hcons : lastWrite (c1 :: (l2 ++ c2 :: l3)) =
      lastWrite (l2 ++ c2 :: l3) := by
    funext k
    rw [lastWrite]
    cases hrest : lastWrite (l2 ++ c2 :: l3) k with
    | some v => rfl
    | none =>
        cases ht : translateCriterion c1 with
        | writesEntry cond =>
            simp only
            split_ifs with hfk
            · exfalso
              subst hfk
              rw [hf] at hrest
              have hs := lastWrite_writer_isSome l2 l3 c2 w hw
              rw [hrest] at hs
              simp at hs
            · rfl
        | noop => rfl
        | panics => exact absurd ht hnp
  have hlw : ∀ k, lastWrite (l1 ++ c1 :: (l2 ++ c2 :: l3)) k
      = lastWrite (l1 ++ (l2 ++ c2 :: l3)) k := by
    intro k
    rw [lastWrite_append, lastWrite_append, ← hcons]
  constructor
  · rw [applyAllCriteria_isNone, applyAllCriteria_isNone]
    simp only [anyPanics, List.any_append, List.any_cons]
    have : (translateCriterion c1 == TranslateResult.panics) = false := by
      cases ht : translateCriterion c1 <;> simp_all
    rw [this]
    simp
  · intro r1 r2 h1 h2 k
    rw [applyAllCriteria_lookup _ _ _ h1 k, applyAllCriteria_lookup _ _ _ h2 k, hlw]

/-- Concrete instance of C10 (amended): `[{f eq 1}, {f neq 2}]` versus
`[{f neq 2}]` produce map-equal filters. -/
theorem mongo_samefield_overwrite_witness :
    ((applyAllCriteria []
        [FilterCriteria.mk "f" "eq" (.vInt 1) [] "" [],
         FilterCriteria.mk "f" "neq" (.vInt 2) [] "" []]).isNone
      = (applyAllCriteria [] [FilterCriteria.mk "f" "neq" (.vInt 2) [] "" []]).isNone)
    ∧ (∀ r1 r2,
        applyAllCriteria []
          [FilterCriteria.mk "f" "eq" (.vInt 1) [] "" [],
           FilterCriteria.mk "f" "neq" (.vInt 2) [] "" []] = some r1 →
        applyAllCriteria [] [FilterCriteria.mk "f" "neq" (.vInt 2) [] "" []] = some r2 →
        ∀ k, goMapLookup r1 k = goMapLookup r2 k) :=
  mongo_samefield_overwrite [] [] [] (.mk "f" "eq" (.vInt 1) [] "" [])
    (.mk "f" "neq" (.vInt 2) [] "" []) (.neV (.vInt 2)) []
    (by decide) (by decide) rfl

/-- C10 counterexample: the claim as stated (no proviso on the later
criterion) is false.  With `[{f eq 1}, {f bogus}]` the later same-field
criterion translates to nothing, so nothing overwrites the earlier entry:
the full sequence yields `{f: 1}` while removing the earlier criterion
yields the empty filter, and the two predicates disagree on the document
`{f: 2}`. -/
theorem mongo_samefield_overwrite_counterexample :
    applyAllCriteria []
        [FilterCriteria.mk "f" "eq" (.vInt 1) [] "" [],
         FilterCriteria.mk "f" "bogus" .vNull [] "" []]
      = some [("f", .eqV (.vInt 1))]
    ∧ applyAllCriteria [] [FilterCriteria.mk "f" "bogus" .vNull [] "" []] = some []
    ∧ mongoMatches trivSem [("f", .eqV (.vInt 1))] [("f", .vInt 2)] = some false
    ∧ mongoMatches trivSem [] [("f", .vInt 2)] = some true := by
  refine ⟨rfl, rfl, ?_, rfl⟩
  decide

/-! ## Unit-of-work transaction state machine (C5)
(`PostgresUnitOfWork.BeginTransaction/CommitTransaction/RollbackTransaction`) -/

/-- The `tx` field of a `PostgresUnitOfWork`: `none` when no transaction
is active (`tx == nil`). -/
structure UowTxState where
  tx : Option Unit
deriving DecidableEq

/-- Errors surfaced by the transaction methods. -/
inductive TxError where
  | alreadyInProgress
  | noActiveTransaction
  | dbError (msg : String)
deriving DecidableEq

/-- `BeginTransaction`: fails when a transaction is already active; else
delegates to the database (`dbBegin = some msg` models `db.Begin()`
failing) and records the new transaction on success. -/
def BeginTransaction (st : UowTxState) (dbBegin : Option String) :
    UowTxState × Option TxError :=
  match st.tx with
  | some _ => (st, some .alreadyInProgress)
  | none =>
      match dbBegin with
      | some e => (st, some (.dbError e))
      | none => (⟨some ()⟩, none)

/-- `CommitTransaction`: fails when no transaction is active; else commits
(`dbCommit = some msg` models `tx.Commit()` failing) and always clears the
transaction slot. -/
def CommitTransaction (st : UowTxState) (dbCommit : Option String) :
    UowTxState × Option TxError :=
  match st.tx with
  | none => (st, some .noActiveTransaction)
  | some _ => (⟨none⟩, dbCommit.map .dbError)

/-- `RollbackTransaction`: a no-op when no transaction is active, else
rolls back and clears the slot (never returns an error). -/
def RollbackTransaction (st : UowTxState) : UowTxState :=
  match st.tx with
  | none => st
  | some _ => ⟨none⟩

/-- C5: the transaction state machine of a single unit-of-work instance:
`Begin` errors with "already in progress" iff a transaction is active;
`Commit` errors with "no active transaction" iff none is active;
`Rollback` is a safe no-op when none is active; successful `Begin`
activates; successful `Commit` and any `Rollback` leave the instance in
the no-transaction state. -/
theorem uow_transaction_state_machine (st : UowTxState) (r c : Option String) :
    ((BeginTransaction st r).2 = some .alreadyInProgress ↔ st.tx.isSome)
    ∧ ((CommitTransaction st c).2 = some .noActiveTransaction ↔ st.tx = none)
    ∧ (st.tx = none → RollbackTransaction st = st)
    ∧ (st.tx.isSome → c = none →
        (CommitTransaction st c).2 = none ∧ (CommitTransaction st c).1.tx = none)
    ∧ (RollbackTransaction st).tx = none
    ∧ (st.tx = none → r = none →
        (BeginTransaction st r).2 = none ∧ (BeginTransaction st r).1.tx.isSome) := by
  obtain ⟨tx⟩ := st
  cases tx <;> cases r <;> cases c <;>
    simp [BeginTransaction, CommitTransaction, RollbackTransaction]

/-- Concrete instance of C5 from the idle state: rollback is a no-op and
begin succeeds. -/
theorem uow_transaction_state_machine_witness :
    RollbackTransaction ⟨none⟩ = ⟨none⟩
    ∧ (BeginTransaction ⟨none⟩ none).2 = none :=
  ⟨(uow_transaction_state_machine ⟨none⟩ none none).2.2.1 rfl,
   ((uow_transaction_state_machine ⟨none⟩ none none).2.2.2.2.2 rfl rfl).1⟩

/-! ## Soft-delete lifecycle of the unit of work (C4)
(`PostgresUnitOfWork.SoftDelete/GetTrashed/Restore`, `BaseRepository`) -/

/-- The persisted table. -/
abbrev Store := List Entity

/-- Database errors relevant to the lifecycle (GORM record-not-found). -/
inductive DbError where
  | recordNotFound
deriving DecidableEq

/-- GORM `First`: the matching row with the smallest primary key. -/
def firstByIdAsc : List Entity → Option Entity
  | [] => none
  | e :: rest =>
      match firstByIdAsc rest with
      | none => some e
      | some e' => if e'.id < e.id then some e' else some e

/-- `BaseRepository.FindOne`: first match of the query (including the
soft-delete default scope) or record-not-found. -/
def repoFindOne (sem : ExternalSem) (s : Store) (q : GormQuery) :
    Except DbError Entity :=
  match firstByIdAsc (s.filter fun e => topMatches sem q e) with
  | some e => .ok e
  | none => .error .recordNotFound

/-- `BaseRepository.FindByID`: `First(&entity, id)` — primary-key match
under the soft-delete default scope. -/
def repoFindByID (s : Store) (idv : Int) : Except DbError Entity :=
  match firstByIdAsc (s.filter fun e => decide (e.id = idv) && e.deletedAt.isNone) with
  | some e => .ok e
  | none => .error .recordNotFound

/-- `BuildQueryFromIdentifier`: fresh model query plus the identifier's
criteria. -/
def buildQueryFromIdentifier (criteria : List FilterCriteria) : GormQuery :=
  ApplyFilters .base criteria

/-- `BaseRepository.Delete` (GORM soft delete): stamp `deleted_at = now`
on every row matching the query under the default scope (so already
deleted rows are untouched). -/
def repoSoftDelete (sem : ExternalSem) (s : Store) (q : GormQuery) (now : Nat) :
    Store :=
  s.map fun e => if topMatches sem q e then { e with deletedAt := some now } else e

/-- `BaseRepository.Restore`: `query.Unscoped().Update("deleted_at", nil)`
— clear the marker on every row matching the query's conditions, default
scope disabled. -/
def repoRestore (sem : ExternalSem) (s : Store) (q : GormQuery) : Store :=
  s.map fun e => if evalQuery sem q e then { e with deletedAt := none } else e

/-- `PostgresUnitOfWork.FindOneByIdentifier`. -/
def UowFindOneByIdentifier (sem : ExternalSem) (s : Store)
    (criteria : List FilterCriteria) : Except DbError Entity :=
  repoFindOne sem s (buildQueryFromIdentifier criteria)

/-- `PostgresUnitOfWork.SoftDelete`: find the entity (default
visibility), soft-delete the rows matching the identifier, return the
pre-deletion snapshot and the new table state. -/
def UowSoftDelete (sem : ExternalSem) (s : Store) (criteria : List FilterCriteria)
    (now : Nat) : Except DbError (Entity × Store) :=
  match UowFindOneByIdentifier sem s criteria with
  | .error e => .error e
  | .ok ent => .ok (ent, repoSoftDelete sem s (buildQueryFromIdentifier criteria) now)

/-- `PostgresUnitOfWork.FindOneById`. -/
def UowFindOneById (s : Store) (idv : Int) : Except DbError Entity :=
  repoFindByID s idv

/-- `PostgresUnitOfWork.GetTrashed`:
`Unscoped().Where("deleted_at IS NOT NULL")`, then `FindAll`. -/
def UowGetTrashed (sem : ExternalSem) (s : Store) : List Entity :=
  s.filter fun e =>
    topMatches sem (.whereCond (.unscoped .base) .deletedAtIsNotNull) e

/-- `PostgresUnitOfWork.Restore`: build the identifier query, `Unscoped`,
chain `Where("deleted_at IS NOT NULL")` (GORM chaining mutates the shared
statement, so the restore update runs on the same chained query), find the
trashed entity, clear its marker, and re-fetch it by id. -/
def UowRestore (sem : ExternalSem) (s : Store) (criteria : List FilterCriteria) :
    Except DbError (Entity × Store) :=
  let q2 := GormQuery.whereCond (.unscoped (buildQueryFromIdentifier criteria))
    .deletedAtIsNotNull
  match repoFindOne sem s q2 with
  | .error e => .error e
  | .ok ent =>
      let s2 := repoRestore sem s q2
      match repoFindByID s2 ent.id with
      | .error e => .error e
      | .ok e2 => .ok (e2, s2)

theorem firstByIdAsc_mem : ∀ (l : List Entity) (x : Entity),
    firstByIdAsc l = some x → x ∈ l
  | [], x, h => by simp [firstByIdAsc] at h
  | e :: rest, x, h => by
      rw [firstByIdAsc] at h
      cases hr : firstByIdAsc rest with
      | none =>
          rw [hr] at h
          cases h
          exact List.mem_cons_self _ _
      | some e' =>
          rw [hr] at h
          have h' : (if e'.id < e.id then some e' else some e) = some x := h
          by_cases hlt : e'.id < e.id
          · rw [if_pos hlt] at h'
            cases h'
            exact List.mem_cons_of_mem _ (firstByIdAsc_mem rest _ hr)
          · rw [if_neg hlt] at h'
            cases h'
            exact List.mem_cons_self _ _

theorem firstByIdAsc_eq_of (l : List Entity) (a : Entity) (ha : a ∈ l)
    (hall : ∀ x ∈ l, x = a) : firstByIdAsc l = some a := by
  induction l with
  | nil => cases ha
  | cons e rest ih =>
      have he : e = a := hall e (List.mem_cons_self _ _)
      rw [firstByIdAsc]
      cases hr : firstByIdAsc rest with
      | none => rw [he]
      | some e' =>
          have he' : e' = a :=
            hall e' (List.mem_cons_of_mem _ (firstByIdAsc_mem rest e' hr))
          show (if e'.id < e.id then some e' else some e) = some a
          split_ifs <;> simp [he, he']

/-- C4: the soft-delete round trip.  For an entity `E` present and live in
the table (ids unique), with the identifier `Equal("id", E.id)`:
`SoftDelete` succeeds and returns `E`'s pre-deletion snapshot; afterwards
`FindOneById(E.id)` fails record-not-found under default visibility;
`GetTrashed()` contains `E` (same id); `Restore` on the identifier then
succeeds and returns `E`; and `FindOneById(E.id)` succeeds again. -/
theorem soft_delete_round_trip (sem : ExternalSem) (s : Store) (E : Entity)
    (now : Nat) (hmem : E ∈ s) (hlive : E.deletedAt = none)
    (huniq : ∀ e ∈ s, e.id = E.id → e = E) :
    ∃ s1 s2 : Store,
      UowSoftDelete sem s ((NewIdentifier.Equal "id" (.vInt E.id)).ToFilterCriteria) now
        = .ok (E, s1)
      ∧ UowFindOneById s1 E.id = .error .recordNotFound
      ∧ (∃ e ∈ UowGetTrashed sem s1, e.id = E.id)
      ∧ UowRestore sem s1 ((NewIdentifier.Equal "id" (.vInt E.id)).ToFilterCriteria)
        = .ok (E, s2)
      ∧ UowFindOneById s2 E.id = .ok E := by
  have hq1 : buildQueryFromIdentifier
      ((NewIdentifier.Equal "id" (.vInt E.id)).ToFilterCriteria)
      = .whereCond .base (.cmp "id" "=" (.vInt E.id)) := rfl
  have hpred1 : ∀ e : Entity,
      topMatches sem (GormQuery.whereCond .base (.cmp "id" "=" (.vInt E.id))) e
        = (decide (e.id = E.id) && e.deletedAt.isNone) := by
    intro e
    by_cases h : e.id = E.id <;>
      simp [topMatches, evalQuery, evalSqlCond, hasUnscoped, Entity.getVal,
        sqlCompare, h]
  have hpred3 : ∀ e : Entity,
      evalQuery sem (GormQuery.whereCond
          (.unscoped (.whereCond .base (.cmp "id" "=" (.vInt E.id))))
          .deletedAtIsNotNull) e
        = (decide (e.id = E.id) && e.deletedAt.isSome) := by
    intro e
    by_cases h : e.id = E.id <;>
      simp [evalQuery, evalSqlCond, Entity.getVal, sqlCompare, h]
  have hpred3top : ∀ e : Entity,
      topMatches sem (GormQuery.whereCond
          (.unscoped (.whereCond .base (.cmp "id" "=" (.vInt E.id))))
          .deletedAtIsNotNull) e
        = (decide (e.id = E.id) && e.deletedAt.isSome) := by
    intro e
    rw [topMatches, hpred3 e]
    simp [hasUnscoped]
  -- the mutated table after SoftDelete, and after Restore
  set g : Entity → Entity := fun e =>
    if decide (e.id = E.id) && e.deletedAt.isNone
    then { e with deletedAt := some now } else e with hgdef
  set h : Entity → Entity := fun e =>
    if decide (e.id = E.id) && e.deletedAt.isSome
    then { e with deletedAt := none } else e with hhdef
  have hgE : g E = { E with deletedAt := some now } := by
    simp [hgdef, hlive]
  have hgother : ∀ y : Entity, y.id ≠ E.id → g y = y := by
    intro y hy
    simp [hgdef, hy]
  have hhother : ∀ y : Entity, y.id ≠ E.id → h y = y := by
    intro y hy
    simp [hhdef, hy]
  have hhmark : h { E with deletedAt := some now } = E := by
    cases E with
    | mk i fl d =>
        simp only [hhdef]
        simp at hlive
        simp [hlive]
  have hs1 : repoSoftDelete sem s
      (GormQuery.whereCond .base (.cmp "id" "=" (.vInt E.id))) now = s.map g := by
    unfold repoSoftDelete
    exact List.map_congr_left fun e _ => by rw [hpred1 e]
  have hs2 : repoRestore sem (s.map g)
      (GormQuery.whereCond (.unscoped (.whereCond .base (.cmp "id" "=" (.vInt E.id))))
        .deletedAtIsNotNull) = (s.map g).map h := by
    unfold repoRestore
    exact List.map_congr_left fun e _ => by rw [hpred3 e]
  -- Step 1: SoftDelete finds E and marks it
  have hfind1 : UowFindOneByIdentifier sem s
      ((NewIdentifier.Equal "id" (.vInt E.id)).ToFilterCriteria) = .ok E := by
    unfold UowFindOneByIdentifier repoFindOne
    rw [hq1]
    have hmemf : E ∈ s.filter fun e =>
        topMatches sem (GormQuery.whereCond .base (.cmp "id" "=" (.vInt E.id))) e := by
      rw [List.mem_filter]
      exact ⟨hmem, by rw [hpred1 E]; simp [hlive]⟩
    have hallf : ∀ x ∈ (s.filter fun e =>
        topMatches sem (GormQuery.whereCond .base (.cmp "id" "=" (.vInt E.id))) e),
        x = E := by
      intro x hx
      rw [List.mem_filter] at hx
      have hp := hx.2
      rw [hpred1 x] at hp
      simp only [Bool.and_eq_true, decide_eq_true_eq] at hp
      exact huniq x hx.1 hp.1
    rw [firstByIdAsc_eq_of _ E hmemf hallf]
  have hstep1 : UowSoftDelete sem s
      ((NewIdentifier.Equal "id" (.vInt E.id)).ToFilterCriteria) now
      = .ok (E, s.map g) := by
    unfold UowSoftDelete
    rw [hfind1, hq1, hs1]
  -- Step 2: FindOneById now fails
  have hstep2 : UowFindOneById (s.map g) E.id = .error .recordNotFound := by
    unfold UowFindOneById repoFindByID
    have hnil : (s.map g).filter
        (fun e => decide (e.id = E.id) && e.deletedAt.isNone) = [] := by
      rw [List.filter_eq_nil_iff]
      intro x hx
      obtain ⟨y, hy, rfl⟩ := List.mem_map.mp hx
      by_cases hid : y.id = E.id
      · have hyE := huniq y hy hid
        subst hyE
        rw [hgE]
        simp
      · rw [hgother y hid]
        simp [hid]
    rw [hnil]
    rfl
  -- Step 3: GetTrashed contains the marked E
  have hstep3 : ∃ e ∈ UowGetTrashed sem (s.map g), e.id = E.id := by
    refine ⟨{ E with deletedAt := some now }, ?_, by simp⟩
    unfold UowGetTrashed
    rw [List.mem_filter]
    constructor
    · rw [← hgE]
      exact List.mem_map_of_mem g hmem
    · simp [topMatches, evalQuery, evalSqlCond, hasUnscoped]
  -- Step 4: Restore finds the marked E, clears it, re-fetches E
  have hfindT : repoFindOne sem (s.map g)
      (GormQuery.whereCond (.unscoped (.whereCond .base (.cmp "id" "=" (.vInt E.id))))
        .deletedAtIsNotNull) = .ok { E with deletedAt := some now } := by
    unfold repoFindOne
    have hmemf : { E with deletedAt := some now } ∈ (s.map g).filter fun e =>
        topMatches sem (GormQuery.whereCond
          (.unscoped (.whereCond .base (.cmp "id" "=" (.vInt E.id))))
          .deletedAtIsNotNull) e := by
      rw [List.mem_filter]
      refine ⟨by rw [← hgE]; exact List.mem_map_of_mem g hmem, ?_⟩
      rw [hpred3top]
      simp
    have hallf : ∀ x ∈ ((s.map g).filter fun e =>
        topMatches sem (GormQuery.whereCond
          (.unscoped (.whereCond .base (.cmp "id" "=" (.vInt E.id))))
          .deletedAtIsNotNull) e),
        x = { E with deletedAt := some now } := by
      intro x hx
      rw [List.mem_filter] at hx
      have hp := hx.2
      rw [hpred3top x] at hp
      simp only [Bool.and_eq_true, decide_eq_true_eq] at hp
      have hid : x.id = E.id := hp.1
      obtain ⟨y, hy, rfl⟩ := List.mem_map.mp hx.1
      by_cases hyid : y.id = E.id
      · have hyE := huniq y hy hyid
        subst hyE
        rw [hgE]
      · rw [hgother y hyid] at hid ⊢
        exact absurd hid hyid
    rw [firstByIdAsc_eq_of _ _ hmemf hallf]
  have hfind2 : repoFindByID ((s.map g).map h) E.id = .ok E := by
    unfold repoFindByID
    have hcomp : (s.map g).map h = s.map (h ∘ g) := List.map_map h g s
    have hmemf : E ∈ ((s.map g).map h).filter
        (fun e => decide (e.id = E.id) && e.deletedAt.isNone) := by
      rw [List.mem_filter]
      constructor
      · rw [hcomp]
        have : (h ∘ g) E = E := by
          simp only [Function.comp_apply]
          rw [hgE, hhmark]
        rw [← this]
        exact List.mem_map_of_mem _ hmem
      · simp [hlive]
    have hallf : ∀ x ∈ ((s.map g).map h).filter
        (fun e => decide (e.id = E.id) && e.deletedAt.isNone), x = E := by
      intro x hx
      rw [List.mem_filter] at hx
      have hp2 := hx.2
      simp only [Bool.and_eq_true, decide_eq_true_eq] at hp2
      have hid : x.id = E.id := hp2.1
      have hx1 := hx.1
      rw [hcomp] at hx1
      obtain ⟨y, hy, rfl⟩ := List.mem_map.mp hx1
      by_cases hyid : y.id = E.id
      · have hyE := huniq y hy hyid
        subst hyE
        simp only [Function.comp_apply]
        rw [hgE, hhmark]
      · simp only [Function.comp_apply] at hid ⊢
        rw [hgother y hyid, hhother y hyid] at hid ⊢
        exact absurd hid hyid
    rw [firstByIdAsc_eq_of _ _ hmemf hallf]
  have hstep4 : UowRestore sem (s.map g)
      ((NewIdentifier.Equal "id" (.vInt E.id)).ToFilterCriteria)
      = .ok (E, (s.map g).map h) := by
    unfold UowRestore
    simp only [hq1]
    rw [hfindT]
    simp only [hs2]
    have : ({ E with deletedAt := some now } : Entity).id = E.id := by simp
    rw [this, hfind2]
  have hstep5 : UowFindOneById ((s.map g).map h) E.id = .ok E := hfind2
  exact ⟨s.map g, (s.map g).map h, hstep1, hstep2, hstep3, hstep4, hstep5⟩

/-- Concrete instance of C4 on a one-row table. -/
theorem soft_delete_round_trip_witness :
    ∃ s1 s2 : Store,
      UowSoftDelete trivSem [⟨1, [], none⟩]
          ((NewIdentifier.Equal "id" (.vInt 1)).ToFilterCriteria) 7
        = .ok (⟨1, [], none⟩, s1)
      ∧ UowFindOneById s1 1 = .error .recordNotFound
      ∧ (∃ e ∈ UowGetTrashed trivSem s1, e.id = 1)
      ∧ UowRestore trivSem s1 ((NewIdentifier.Equal "id" (.vInt 1)).ToFilterCriteria)
        = .ok (⟨1, [], none⟩, s2)
      ∧ UowFindOneById s2 1 = .ok ⟨1, [], none⟩ :=
  soft_delete_round_trip trivSem [⟨1, [], none⟩] ⟨1, [], none⟩ 7
    (List.mem_singleton.mpr rfl) rfl
    (by intro e he _; simpa using he)

end GoDatabase
